import Mathlib

/-
  Verification of the RISC-V vector extension helpers
  (target/riscv/vector_helper.c, target/riscv/insn_trans/trans_rvv.inc.c).

  The C helpers are shallowly embedded: machine integers become Nat (bit
  patterns) or Int with explicit wrapping, vector registers become functions
  from element index to value, guest memory accessibility becomes an explicit
  probe function, and the C longjmp on a memory fault becomes an Except value
  carrying the architectural state at the moment of the fault.
-/

/-! ### Vector configuration: helper_vsetvl (vector_helper.c lines 29-69) -/

/-- Decoded fields of a vtype value, as extracted by FIELD_EX64(s2, VTYPE, _).
The bit layout of the vtype CSR lives outside this tree (cpu_bits.h); the
helper consumes only the decoded fields, so the embedding takes them as a
structure: vlmul and vsew are raw 3-bit fields, vediv the ediv field, vill
the raw illegal bit, reserved the reserved bits. -/
structure VtypeF where
  vlmul : Nat
  vsew : Nat
  vediv : Nat
  vill : Bool
  reserved : Nat
deriving DecidableEq

/-- The architectural state written by helper_vsetvl (env fields vl, vtype,
vstart) together with the returned value. -/
structure VsetvlResult where
  vl : Nat
  vtype : VtypeF
  vstart : Nat
  ret : Nat
deriving DecidableEq

/-- The vtype value FIELD_DP64(0, VTYPE, VILL, 1) stored on the rejection
path: every field zero except the illegal bit. -/
def villOnlyVtype : VtypeF := ⟨0, 0, 0, true, 0⟩

/-- Modelled from the spec: vext_get_vlmax is defined outside this tree
(cpu.h).  Spec section 3: VLMAX = (VLEN / sew) * lmul, where sew = 8 << vsew
and lmul = 2 ^ e with e the signed 3-bit value of vlmul (fractional for
vlmul in 5..7, where 8 - vlmul is the magnitude of the negative exponent). -/
def vext_get_vlmax (vlen : Nat) (t : VtypeF) : Nat :=
  let sew := 8 <<< t.vsew
  if t.vlmul < 4 then (vlen / sew) <<< t.vlmul
  else (vlen / sew) >>> (8 - t.vlmul)

/-- helper_vsetvl, vector_helper.c lines 29-69.  elen and vlen are the cpu
configuration constants cfg.elen and cfg.vlen; s1 is the requested length,
t the decoded vtype fields of s2.  On the rejection path only the vill bit
of vtype is set, vl becomes 0 and 0 is returned; otherwise vl becomes
min(s1, vlmax), vtype is stored as decoded, and vl is returned.  Both paths
reset vstart to 0. -/
def helper_vsetvl (elen vlen s1 : Nat) (t : VtypeF) : VsetvlResult :=
  let lmul := t.vlmul
  let sew := 8 <<< t.vsew
  let vill :=
    if lmul &&& 4 ≠ 0 then
      (if lmul = 4 ∨ elen >>> (8 - lmul) < sew then true else t.vill)
    else t.vill
  if sew > elen ∨ vill = true ∨ t.vediv ≠ 0 ∨ t.reserved ≠ 0 then
    { vl := 0, vtype := villOnlyVtype, vstart := 0, ret := 0 }
  else
    let vlmax := vext_get_vlmax vlen t
    let vl := if s1 ≤ vlmax then s1 else vlmax
    { vl := vl, vtype := t, vstart := 0, ret := vl }

/-- C10: after every invocation of helper_vsetvl, vstart equals 0 — on the
rejection path (which marks vtype illegal and sets vl to 0) as well as on
the successful-configuration path. -/
theorem helper_vsetvl_vstart_always_zero (elen vlen s1 : Nat) (t : VtypeF) :
    (helper_vsetvl elen vlen s1 t).vstart = 0 := by
  simp only [helper_vsetvl]
  split_ifs <;> rfl

/-- C3 counterexample: the claim lists as legality conditions only
sew ≤ elen, reserved = 0 and the fractional-lmul bound, but helper_vsetvl
also rejects when the ediv field is nonzero.  With elen = 64, vlen = 128,
requested length 1 and vtype fields vlmul = 0, vsew = 0 (sew = 8),
vediv = 1, vill clear, reserved = 0, all of the claim's conditions hold,
yet the helper takes the rejection path: vl = 0 and the returned value is
0, not min(1, vlmax) = 1. -/
theorem helper_vsetvl_claim_false_at_ediv :
    (8 <<< (0 : Nat) ≤ 64 ∧ (0 : Nat) = 0 ∧ (0 : Nat) &&& 4 = 0) ∧
    (helper_vsetvl 64 128 1 ⟨0, 0, 1, false, 0⟩).vl ≠
      min 1 (vext_get_vlmax 128 ⟨0, 0, 1, false, 0⟩) ∧
    (helper_vsetvl 64 128 1 ⟨0, 0, 1, false, 0⟩).ret ≠
      min 1 (vext_get_vlmax 128 ⟨0, 0, 1, false, 0⟩) := by
  decide

/-- C3 (amended): if additionally the ediv field is zero, the incoming vill
bit is clear, and a fractional vlmul is not the reserved encoding 4, then a
call whose typeBits satisfy the claim's legality conditions (sew ≤ elen,
reserved bits zero, and for fractional lmul elen >> magnitude ≥ sew) sets
vl = min(requested, vlmax), stores the decoded vtype, returns the new vl
and resets vstart to 0. -/
theorem helper_vsetvl_legal_config (elen vlen s1 : Nat) (t : VtypeF)
    (hsew : 8 <<< t.vsew ≤ elen)
    (hvill : t.vill = false)
    (hediv : t.vediv = 0)
    (hres : t.reserved = 0)
    (hfrac : t.vlmul &&& 4 ≠ 0 →
      t.vlmul ≠ 4 ∧ 8 <<< t.vsew ≤ elen >>> (8 - t.vlmul)) :
    helper_vsetvl elen vlen s1 t =
      { vl := min s1 (vext_get_vlmax vlen t), vtype := t, vstart := 0,
        ret := min s1 (vext_get_vlmax vlen t) } := by
  have hv : (if t.vlmul &&& 4 ≠ 0 then
      (if t.vlmul = 4 ∨ elen >>> (8 - t.vlmul) < 8 <<< t.vsew then true
        else t.vill)
    else t.vill) = false := by
    by_cases h4 : t.vlmul &&& 4 ≠ 0
    · rcases hfrac h4 with ⟨h41, h42⟩
      simp only [if_pos h4]
      rw [if_neg, hvill]
      push_neg
      exact ⟨h41, by omega⟩
    · simp only [if_neg h4, hvill]
  simp only [helper_vsetvl, hv]
  rw [if_neg]
  · rw [Nat.min_def]
  · push_neg
    refine ⟨by omega, by simp, hediv, hres⟩

/-- C3 witness: with elen = 64, sew = 32 (vsew = 2), lmul = 1 (vlmul = 0),
VLEN = 128 the amended theorem applies; vlmax = 4 and a request of 6
yields vl = 4. -/
theorem helper_vsetvl_legal_config_witness :
    helper_vsetvl 64 128 6 ⟨0, 2, 0, false, 0⟩ =
      { vl := min 6 (vext_get_vlmax 128 ⟨0, 2, 0, false, 0⟩),
        vtype := ⟨0, 2, 0, false, 0⟩, vstart := 0,
        ret := min 6 (vext_get_vlmax 128 ⟨0, 2, 0, false, 0⟩) } ∧
    vext_get_vlmax 128 ⟨0, 2, 0, false, 0⟩ = 4 := by
  refine ⟨helper_vsetvl_legal_config 64 128 6 ⟨0, 2, 0, false, 0⟩
    (by decide) (by decide) (by decide) (by decide) (by decide), by decide⟩

/-! ### Register-group overlap predicates (trans_rvv.inc.c lines 29-57) -/

/-- is_overlapped, trans_rvv.inc.c lines 29-39.  Sizes of value 0 are
treated as 1; the C test MAX(aend, bend) - MIN(astart, bstart) <
asize + bsize is kept verbatim. -/
def is_overlapped (astart asize bstart bsize : Int) : Bool :=
  let asize2 := if asize = 0 then 1 else asize
  let bsize2 := if bsize = 0 then 1 else bsize
  let aend := astart + asize2
  let bend := bstart + bsize2
  decide (max aend bend - min astart bstart < asize2 + bsize2)

/-- is_overlapped_widen, trans_rvv.inc.c lines 41-57.  The shifted second
range uses the normalized bsize, as in the source where the locals shadow
the parameters. -/
def is_overlapped_widen (astart asize bstart bsize : Int) : Bool :=
  let asize2 := if asize = 0 then 1 else asize
  let bsize2 := if bsize = 0 then 1 else bsize
  let aend := astart + asize2
  let bend := bstart + bsize2
  if astart < bstart ∧ is_overlapped astart asize2 bstart bsize2 = true ∧
      is_overlapped astart asize2 (bstart + bsize2) bsize2 = false then
    false
  else
    decide (max aend bend - min astart bstart < asize2 + bsize2)

/-- Normalizing the sizes before calling is_overlapped changes nothing:
the function normalizes them itself. -/
theorem is_overlapped_norm (a as bt bs : Int) :
    is_overlapped a (if as = 0 then 1 else as) bt (if bs = 0 then 1 else bs) =
      is_overlapped a as bt bs := by
  rcases eq_or_ne as 0 with h | h <;> rcases eq_or_ne bs 0 with g | g <;>
    simp [is_overlapped, h, g]

/-- C4: with zero sizes treated as 1, is_overlapped is the intersection
test of the ranges [astart, astart+asize) and [bstart, bstart+bsize);
is_overlapped_widen returns false (no violation) whenever astart < bstart,
the plain overlap holds of the two ranges, and it does not hold against
the second range shifted up by its size; in every other case it returns
exactly the plain overlap test. -/
theorem is_overlapped_widen_spec (a as bt bs : Int)
    (has : 0 ≤ as) (hbs : 0 ≤ bs) :
    (is_overlapped a as bt bs = true ↔
      (a < bt + (if bs = 0 then 1 else bs) ∧
       bt < a + (if as = 0 then 1 else as))) ∧
    ((a < bt ∧ is_overlapped a as bt bs = true ∧
        is_overlapped a as (bt + (if bs = 0 then 1 else bs)) bs = false) →
      is_overlapped_widen a as bt bs = false) ∧
    (¬(a < bt ∧ is_overlapped a as bt bs = true ∧
        is_overlapped a as (bt + (if bs = 0 then 1 else bs)) bs = false) →
      is_overlapped_widen a as bt bs = is_overlapped a as bt bs) := by
  have key : ∀ (x y u v : Int), 0 < u → 0 < v →
      (max (x + u) (y + v) - min x y < u + v ↔ (x < y + v ∧ y < x + u)) := by
    intro x y u v hu hv
    rcases le_total (x + u) (y + v) with hm | hm <;>
      rcases le_total x y with hn | hn
    · rw [max_eq_right hm, min_eq_left hn]; omega
    · rw [max_eq_right hm, min_eq_right hn]; omega
    · rw [max_eq_left hm, min_eq_left hn]; omega
    · rw [max_eq_left hm, min_eq_right hn]; omega
  have hsem : is_overlapped a as bt bs = true ↔
      (a < bt + (if bs = 0 then 1 else bs) ∧
       bt < a + (if as = 0 then 1 else as)) := by
    simp only [is_overlapped, decide_eq_true_eq]
    exact key a bt _ _ (by split_ifs <;> omega) (by split_ifs <;> omega)
  refine ⟨hsem, ?_, ?_⟩
  · intro ⟨h1, h2, h3⟩
    simp only [is_overlapped_widen]
    rw [if_pos]
    exact ⟨h1, by rw [is_overlapped_norm]; exact h2,
      by rw [is_overlapped_norm]; exact h3⟩
  · intro hcond
    simp only [is_overlapped_widen]
    rw [if_neg]
    · simp [is_overlapped]
    · intro ⟨h1, h2, h3⟩
      exact hcond ⟨h1, by rw [is_overlapped_norm] at h2; exact h2,
        by rw [is_overlapped_norm] at h3; exact h3⟩

/-- C4 witness: destination group v2 of size 4, source group v4 of size 2:
the widening exemption applies and no overlap violation is reported. -/
theorem is_overlapped_widen_spec_witness : is_overlapped_widen 2 4 4 2 = false :=
  (is_overlapped_widen_spec 2 4 4 2 (by decide) (by decide)).2.1
    ⟨by decide, by decide, by decide⟩

/-! ### Fixed-point rounding: get_round (vector_helper.c lines 2307-2332) -/

/-- extract64 from the qemu bit-operations utility header (outside this
tree): the len-bit field of v starting at bit start.  qemu requires
start + len ≤ 64; the mathematical extraction is total in the model. -/
def extract64 (v start len : Nat) : Nat := (v >>> start) % (1 <<< len)

/-- get_round, vector_helper.c lines 2307-2332.  vxrm 0 is
round-to-nearest-up, 1 round-to-nearest-even, 2 round-down, 3
round-to-odd; the returned value is the +1 rounding adjustment applied to
v >> shift. -/
def get_round (vxrm v shift : Nat) : Nat :=
  let d := extract64 v shift 1
  if shift = 0 ∨ shift > 64 then 0
  else
    let d1 := extract64 v (shift - 1) 1
    let D1 := extract64 v 0 shift
    if vxrm = 0 then d1
    else if vxrm = 1 then
      (if shift > 1 then
        (let D2 := extract64 v 0 (shift - 1)
         d1 &&& ((if D2 ≠ 0 then 1 else 0) ||| d))
      else d1 &&& d)
    else if vxrm = 3 then
      (if d = 0 then 1 else 0) &&& (if D1 ≠ 0 then 1 else 0)
    else 0

theorem extract64_one (v s : Nat) : extract64 v s 1 = (v >>> s) % 2 := by
  simp [extract64]

theorem extract64_low (v len : Nat) : extract64 v 0 len = v % (1 <<< len) := by
  simp [extract64]

/-- C7: for every value and every shift amount in [1, 64], get_round
returns: under round-to-nearest-up, bit shift-1 of v; under
round-to-nearest-even, bit shift-1 ANDed with (some lower discarded bit
set OR bit shift set, the latter making the tie round to even); under
round-down, 0; under round-to-odd, 1 exactly when some of the shift
discarded bits is nonzero and the lowest kept bit (bit shift) is 0. -/
theorem get_round_spec (v shift : Nat) (h1 : 1 ≤ shift) (h2 : shift ≤ 64) :
    get_round 0 v shift = (v >>> (shift - 1)) % 2 ∧
    get_round 1 v shift =
      (if (v >>> (shift - 1)) % 2 = 1 ∧
          (v % (1 <<< (shift - 1)) ≠ 0 ∨ (v >>> shift) % 2 = 1)
       then 1 else 0) ∧
    get_round 2 v shift = 0 ∧
    get_round 3 v shift =
      (if v % (1 <<< shift) ≠ 0 ∧ (v >>> shift) % 2 = 0 then 1 else 0) := by
  have hg : ¬(shift = 0 ∨ shift > 64) := by omega
  refine ⟨?_, ?_, ?_, ?_⟩
  · simp only [get_round, if_neg hg, extract64_one]
    rfl
  · simp only [get_round, if_neg hg, extract64_one, extract64_low]
    by_cases hs : 1 < shift
    · rw [if_pos hs]
      rcases Nat.mod_two_eq_zero_or_one (v >>> (shift - 1)) with hd1 | hd1 <;>
        rcases Nat.mod_two_eq_zero_or_one (v >>> shift) with hd | hd <;>
        by_cases hD2 : v % (1 <<< (shift - 1)) = 0 <;>
        simp [hd1, hd, hD2]
    · rw [if_neg hs]
      have hs1 : shift = 1 := by omega
      subst hs1
      rcases Nat.mod_two_eq_zero_or_one v with hd1 | hd1 <;>
        rcases Nat.mod_two_eq_zero_or_one (v >>> 1) with hd | hd <;>
        simp [hd1, hd, Nat.mod_one]
  · simp only [get_round, if_neg hg]
    rfl
  · simp only [get_round, if_neg hg, extract64_one, extract64_low]
    rcases Nat.mod_two_eq_zero_or_one (v >>> shift) with hd | hd <;>
      by_cases hD1 : v % (1 <<< shift) ≠ 0 <;>
      simp [hd, hD1]

/-- C7 witness: v = 6 (binary 110), shift = 2: round-to-nearest-up gives
bit 1 = 1, round-to-nearest-even gives 1, round-down 0, round-to-odd 0
(the lowest kept bit is already 1). -/
theorem get_round_spec_witness :
    get_round 0 6 2 = (6 >>> (2 - 1)) % 2 ∧
    get_round 1 6 2 =
      (if (6 >>> (2 - 1)) % 2 = 1 ∧
          (6 % (1 <<< (2 - 1)) ≠ 0 ∨ (6 >>> 2) % 2 = 1)
       then 1 else 0) ∧
    get_round 2 6 2 = 0 ∧
    get_round 3 6 2 =
      (if 6 % (1 <<< 2) ≠ 0 ∧ (6 >>> 2) % 2 = 0 then 1 else 0) :=
  get_round_spec 6 2 (by decide) (by decide)

/-! ### Element memory engine: probe phase and access phase
(vector_helper.c lines 215-245, 282-302, 369-401, 457-522)

The architectural state touched by an element access (the destination
register group for a load, guest memory for a store) is an abstract type σ
transformed by the ldst_elem callback, exactly as the C helpers are generic
over their vext_ldst_elem_fn argument.  probe_pages is modelled by a
probe : addr → len → Bool accessibility oracle for the byte range it spans
(it walks the range page by page but has no architectural effect); a
failing probe longjmps out of the helper, modelled as an Except.error
carrying the state at the moment of the fault. -/

/-- A C for-loop for (i = start; i < start + n; i++) whose body either
continues (possibly skipping via the mask) or faults out, carrying the
state at the fault. -/
def probeLoop {σ : Type} (cond : Nat → Bool) : Nat → Nat → σ → Except σ σ
  | 0, _, s => .ok s
  | n + 1, i, s => if cond i then probeLoop cond n (i + 1) s else .error s

/-- A C for-loop for (i = start; i < start + n; i++) with a pure body. -/
def accessLoop {σ : Type} (body : Nat → σ → σ) : Nat → Nat → σ → σ
  | 0, _, s => s
  | n + 1, i, s => accessLoop body n (i + 1) (body i s)

/-- The inner while (k < nf) loop over the fields of one segment. -/
def fieldLoop {σ : Type} (g : Nat → σ → σ) : Nat → Nat → σ → σ
  | 0, _, s => s
  | n + 1, k, s => fieldLoop g n (k + 1) (g k s)

/-- vext_ldst_stride, vector_helper.c lines 215-245: probe every active
element's range, then perform the per-field accesses.  vm and the mask
come from the instruction, vlmax is the group size in elements, base and
stride the addressing inputs, esz the element size in bytes. -/
def vext_ldst_stride {σ : Type} (vl nf vlmax : Nat) (vm : Bool)
    (mask : Nat → Bool) (base stride esz : Nat) (probe : Nat → Nat → Bool)
    (ldst_elem : Nat → Nat → σ → σ) (s : σ) : Except σ σ :=
  match probeLoop
      (fun i => if !vm && !(mask i) then true
        else probe (base + stride * i) (nf * esz)) vl 0 s with
  | .error e => .error e
  | .ok s1 => .ok (accessLoop
      (fun i t => if !vm && !(mask i) then t
        else fieldLoop
          (fun k u => ldst_elem (base + stride * i + k * esz) (i + k * vlmax) u)
          nf 0 t) vl 0 s1)

/-- vext_ldst_index, vector_helper.c lines 369-401: as the strided form but
with the per-element address produced by the get_index_addr callback
(base + index-register element, lines 357-367). -/
def vext_ldst_index {σ : Type} (vl nf vlmax : Nat) (vm : Bool)
    (mask : Nat → Bool) (get_index_addr : Nat → Nat) (esz : Nat)
    (probe : Nat → Nat → Bool) (ldst_elem : Nat → Nat → σ → σ) (s : σ) :
    Except σ σ :=
  match probeLoop
      (fun i => if !vm && !(mask i) then true
        else probe (get_index_addr i) (nf * esz)) vl 0 s with
  | .error e => .error e
  | .ok s1 => .ok (accessLoop
      (fun i t => if !vm && !(mask i) then t
        else fieldLoop
          (fun k u => ldst_elem (get_index_addr i + k * esz) (i + k * vlmax) u)
          nf 0 t) vl 0 s1)

/-- vext_ldst_us, vector_helper.c lines 282-302: the unmasked unit-stride
form probes the whole contiguous range [base, base + vl*nf*esz) covering
every element, then performs all accesses. -/
def vext_ldst_us {σ : Type} (vl nf vlmax : Nat) (base esz : Nat)
    (probe : Nat → Nat → Bool) (ldst_elem : Nat → Nat → σ → σ) (s : σ) :
    Except σ σ :=
  if probe base (vl * nf * esz) then
    .ok (accessLoop
      (fun i t => fieldLoop
        (fun k u => ldst_elem (base + (i * nf + k) * esz) (i + k * vlmax) u)
        nf 0 t) vl 0 s)
  else .error s

/-- A failing iteration makes probeLoop abort with the entry state: the
probe phase itself never changes the state. -/
theorem probeLoop_error {σ : Type} (cond : Nat → Bool) :
    ∀ (n i : Nat) (s : σ), (∃ j, i ≤ j ∧ j < i + n ∧ cond j = false) →
      probeLoop cond n i s = .error s := by
  intro n
  induction n with
  | zero => intro i s ⟨j, hj1, hj2, _⟩; omega
  | succ n ih =>
    intro i s ⟨j, hj1, hj2, hj3⟩
    by_cases hc : cond i
    · have hne : j ≠ i := by intro h; rw [h] at hj3; rw [hc] at hj3; cases hj3
      simp only [probeLoop, if_pos hc]
      exact ih (i + 1) s ⟨j, by omega, by omega, hj3⟩
    · simp only [probeLoop, if_neg hc]

/-- If every iteration succeeds, probeLoop falls through with the entry
state unchanged. -/
theorem probeLoop_ok {σ : Type} (cond : Nat → Bool) :
    ∀ (n i : Nat) (s : σ), (∀ j, i ≤ j → j < i + n → cond j = true) →
      probeLoop cond n i s = .ok s := by
  intro n
  induction n with
  | zero => intro i s _; rfl
  | succ n ih =>
    intro i s h
    simp only [probeLoop, if_pos (h i (by omega) (by omega))]
    exact ih (i + 1) s (fun j hj1 hj2 => h j (by omega) (by omega))

/-- C1: for the strided, indexed and unit-stride load/store helpers, every
active element's address range is probed before any element access runs;
if some active element's probe fails, the helper aborts by fault with the
architectural state (register file and guest memory alike, both inside σ)
exactly as on entry. -/
theorem vext_ldst_probe_fault_no_effect {σ : Type} (vl nf vlmax : Nat)
    (vm : Bool) (mask : Nat → Bool) (base stride esz : Nat)
    (get_index_addr : Nat → Nat) (probe : Nat → Nat → Bool)
    (ldst_elem : Nat → Nat → σ → σ) (s : σ) :
    ((∃ i, i < vl ∧ (vm = true ∨ mask i = true) ∧
        probe (base + stride * i) (nf * esz) = false) →
      vext_ldst_stride vl nf vlmax vm mask base stride esz probe ldst_elem s =
        .error s) ∧
    ((∃ i, i < vl ∧ (vm = true ∨ mask i = true) ∧
        probe (get_index_addr i) (nf * esz) = false) →
      vext_ldst_index vl nf vlmax vm mask get_index_addr esz probe ldst_elem s =
        .error s) ∧
    (probe base (vl * nf * esz) = false →
      vext_ldst_us vl nf vlmax base esz probe ldst_elem s = .error s) := by
  have hcond : ∀ (addrOf : Nat → Nat) (i : Nat),
      (vm = true ∨ mask i = true) → probe (addrOf i) (nf * esz) = false →
      (if !vm && !(mask i) then true else probe (addrOf i) (nf * esz)) = false := by
    intro addrOf i hact hpf
    rcases hact with h | h <;> simp [h, hpf]
  refine ⟨?_, ?_, ?_⟩
  · intro ⟨i, hi, hact, hpf⟩
    unfold vext_ldst_stride
    rw [probeLoop_error _ vl 0 s
      ⟨i, by omega, by omega, hcond (fun j => base + stride * j) i hact hpf⟩]
  · intro ⟨i, hi, hact, hpf⟩
    unfold vext_ldst_index
    rw [probeLoop_error _ vl 0 s
      ⟨i, by omega, by omega, hcond get_index_addr i hact hpf⟩]
  · intro hpf
    unfold vext_ldst_us
    rw [if_neg]
    simp [hpf]

/-- C1 witness: a two-element strided load whose element 1 lands on an
inaccessible address, an indexed store whose element 0 is inaccessible,
and a unit-stride access with an inaccessible range, all abort with the
register file and memory (an arbitrary distinguished state value, here a
Nat) unchanged. -/
theorem vext_ldst_probe_fault_no_effect_witness :
    (vext_ldst_stride (σ := Nat) 2 1 8 true (fun _ => false) 0 4 4
        (fun a _ => decide (a < 4)) (fun _ _ t => t + 1) 7 = .error 7) ∧
    (vext_ldst_index (σ := Nat) 2 1 8 false (fun i => decide (i = 0)) (fun i => 100 + i) 4
        (fun a _ => decide (a < 100)) (fun _ _ t => t + 1) 7 = .error 7) ∧
    (vext_ldst_us (σ := Nat) 2 1 8 0 4 (fun _ _ => false) (fun _ _ t => t + 1) 7 =
      .error 7) := by
  have h := vext_ldst_probe_fault_no_effect (σ := Nat) 2 1 8 true
    (fun _ => false) 0 4 4 (fun i => 100 + i) (fun a _ => decide (a < 4))
    (fun _ _ t => t + 1) 7
  have h2 := vext_ldst_probe_fault_no_effect (σ := Nat) 2 1 8 false
    (fun i => decide (i = 0)) 0 4 4 (fun i => 100 + i)
    (fun a _ => decide (a < 100)) (fun _ _ t => t + 1) 7
  have h3 := vext_ldst_probe_fault_no_effect (σ := Nat) 2 1 8 true
    (fun _ => false) 0 4 4 (fun i => 100 + i) (fun _ _ => false)
    (fun _ _ t => t + 1) 7
  exact ⟨h.1 ⟨1, by decide, Or.inl rfl, by decide⟩,
    h2.2.1 ⟨0, by decide, Or.inr (by decide), by decide⟩,
    h3.2.2 rfl⟩

/-- Pointwise write to a register modelled as a function from element index
to value (the H-indexed element store of the C helpers, with the
host-endian fixup H(x) = x of little-endian hosts). -/
def updf {α : Type} (f : Nat → α) (i : Nat) (x : α) : Nat → α :=
  fun j => if j = i then x else f j

/-- Evaluation of an accessLoop whose body writes position i of the state
with a value depending only on i, skipping masked-off iterations: position
p holds the written value exactly when the loop reached it and it was not
skipped. -/
theorem accessLoop_update_eval {α : Type} (skip : Nat → Bool) (v : Nat → α) :
    ∀ (n i0 : Nat) (s : Nat → α) (p : Nat),
      accessLoop (fun i t => if skip i then t else updf t i (v i)) n i0 s p =
        if i0 ≤ p ∧ p < i0 + n ∧ skip p = false then v p else s p := by
  intro n
  induction n with
  | zero =>
    intro i0 s p
    rw [accessLoop, if_neg]
    rintro ⟨h1, h2, _⟩
    omega
  | succ n ih =>
    intro i0 s p
    simp only [accessLoop]
    rw [ih (i0 + 1) _ p]
    by_cases h1 : i0 + 1 ≤ p ∧ p < i0 + 1 + n ∧ skip p = false
    · rw [if_pos h1, if_pos ⟨by omega, by omega, h1.2.2⟩]
    · rw [if_neg h1]
      by_cases hp : p = i0
      · subst hp
        by_cases hsk : skip p
        · have hrhs : ¬(p ≤ p ∧ p < p + (n + 1) ∧ skip p = false) := by
            rintro ⟨_, _, hc⟩
            simp [hsk] at hc
          rw [if_pos hsk, if_neg hrhs]
        · rw [if_neg hsk, if_pos ⟨le_refl _, by omega, by simpa using hsk⟩]
          simp [updf]
      · have hrhs : ¬(i0 ≤ p ∧ p < i0 + (n + 1) ∧ skip p = false) := by
          rintro ⟨hA, hB, hC⟩
          exact h1 ⟨by omega, by omega, hC⟩
        rw [if_neg hrhs]
        by_cases hsk : skip i0
        · rw [if_pos hsk]
        · rw [if_neg hsk]
          simp [updf, hp]

/-! ### Fault-only-first loads: vext_ldff (vector_helper.c lines 457-522) -/

/-- One probe-phase iteration of vext_ldff: a masked-off element is skipped
(counts as success); an active element succeeds exactly when its whole
range [base + nf*i*msz, + nf*msz) is accessible.  For i = 0 the C code
uses probe_pages, for i ≥ 1 it walks the range page by page through
tlb_vaddr_to_host; both amount to accessibility of the range. -/
def ldff_elem_ok (vm : Bool) (mask : Nat → Bool) (base nf msz : Nat)
    (probe : Nat → Nat → Bool) (i : Nat) : Bool :=
  if !vm && !(mask i) then true else probe (base + nf * i * msz) (nf * msz)

/-- First index at or after i, within the next n indices, whose condition
fails (the goto ProbeSuccess target index of vext_ldff). -/
def firstFail (cond : Nat → Bool) : Nat → Nat → Option Nat
  | _, 0 => none
  | i, n + 1 => if cond i then firstFail cond (i + 1) n else some i

/-- The access phase of vext_ldff (lines 507-521): for the first n
elements, skip masked-off ones and load every field of the others. -/
def ldffAccess {σ : Type} (vm : Bool) (mask : Nat → Bool)
    (base nf msz vlmax : Nat) (ldst_elem : Nat → Nat → σ → σ) (n : Nat)
    (s : σ) : σ :=
  accessLoop
    (fun i t => if !vm && !(mask i) then t
      else fieldLoop
        (fun k u => ldst_elem (base + (i * nf + k) * msz) (i + k * vlmax) u)
        nf 0 t) n 0 s

/-- vext_ldff, vector_helper.c lines 457-522.  A failing probe of active
element 0 faults (Except.error with the entry state); a failing probe of
an active element i ≥ 1 stops probing and truncates env->vl to i before
the access phase; otherwise vl is unchanged.  The result carries the new
vl and the state after the access phase. -/
def vext_ldff {σ : Type} (vl nf vlmax : Nat) (vm : Bool)
    (mask : Nat → Bool) (base msz : Nat) (probe : Nat → Nat → Bool)
    (ldst_elem : Nat → Nat → σ → σ) (s : σ) : Except σ (Nat × σ) :=
  if 0 < vl ∧ ldff_elem_ok vm mask base nf msz probe 0 = false then .error s
  else
    match firstFail (ldff_elem_ok vm mask base nf msz probe) 1 (vl - 1) with
    | some k => .ok (k, ldffAccess vm mask base nf msz vlmax ldst_elem k s)
    | none => .ok (vl, ldffAccess vm mask base nf msz vlmax ldst_elem vl s)

theorem firstFail_eq_some (cond : Nat → Bool) :
    ∀ (n i k : Nat), i ≤ k → k < i + n → cond k = false →
      (∀ j, i ≤ j → j < k → cond j = true) → firstFail cond i n = some k := by
  intro n
  induction n with
  | zero => intro i k h1 h2 _ _; omega
  | succ n ih =>
    intro i k h1 h2 h3 h4
    by_cases hik : i = k
    · subst hik
      simp only [firstFail, h3]
      rfl
    · have hci : cond i = true := h4 i (le_refl _) (by omega)
      simp only [firstFail, hci, if_true]
      exact ih (i + 1) k (by omega) (by omega) h3
        (fun j hj1 hj2 => h4 j (by omega) hj2)

theorem firstFail_eq_none (cond : Nat → Bool) :
    ∀ (n i : Nat), (∀ j, i ≤ j → j < i + n → cond j = true) →
      firstFail cond i n = none := by
  intro n
  induction n with
  | zero => intro i _; rfl
  | succ n ih =>
    intro i h
    simp only [firstFail, h i (le_refl _) (by omega), if_true]
    exact ih (i + 1) (fun j hj1 hj2 => h j (by omega) (by omega))

/-- C2: for a fault-only-first load, (a) a failing probe of active element
0 faults normally with the state unchanged; (b) if the probe executed for
active element k ≥ 1 fails (every earlier active element having probed
successfully), no exception is raised, vl is truncated to k and the access
phase runs over the first k elements only; (c) if no active probe in
[0, vl) fails, vl is unchanged and the access phase covers all vl
elements; (d) with nf = 1 and the elementary load lde (which writes the
memory value at the element's address into destination slot i), the access
phase over n elements yields exactly: slot p loaded from base + p*msz for
every active p < n, every other slot untouched. -/
theorem vext_ldff_spec {σ : Type} (vl nf vlmax : Nat) (vm : Bool)
    (mask : Nat → Bool) (base msz : Nat) (probe : Nat → Nat → Bool)
    (ldst_elem : Nat → Nat → σ → σ) (s : σ) :
    (0 < vl → (vm = true ∨ mask 0 = true) →
      probe (base + nf * 0 * msz) (nf * msz) = false →
      vext_ldff vl nf vlmax vm mask base msz probe ldst_elem s = .error s) ∧
    (∀ k, 1 ≤ k → k < vl → (vm = true ∨ mask k = true) →
      probe (base + nf * k * msz) (nf * msz) = false →
      (∀ j, j < k → (vm = true ∨ mask j = true) →
        probe (base + nf * j * msz) (nf * msz) = true) →
      vext_ldff vl nf vlmax vm mask base msz probe ldst_elem s =
        .ok (k, ldffAccess vm mask base nf msz vlmax ldst_elem k s)) ∧
    ((∀ j, j < vl → (vm = true ∨ mask j = true) →
        probe (base + nf * j * msz) (nf * msz) = true) →
      vext_ldff vl nf vlmax vm mask base msz probe ldst_elem s =
        .ok (vl, ldffAccess vm mask base nf msz vlmax ldst_elem vl s)) ∧
    (∀ (memval : Nat → Nat) (s0 : Nat → Nat) (n p : Nat),
      ldffAccess vm mask base 1 msz vlmax
        (fun a i t => updf t i (memval a)) n s0 p =
        if p < n ∧ (vm = true ∨ mask p = true) then memval (base + p * msz)
        else s0 p) := by
  have hoka : ∀ i, (vm = true ∨ mask i = true) →
      probe (base + nf * i * msz) (nf * msz) = false →
      ldff_elem_ok vm mask base nf msz probe i = false := by
    intro i hact hpf
    rcases hact with h | h <;> simp [ldff_elem_ok, h, hpf]
  have hokt : ∀ i, ((vm = true ∨ mask i = true) →
      probe (base + nf * i * msz) (nf * msz) = true) →
      ldff_elem_ok vm mask base nf msz probe i = true := by
    intro i h
    cases hv : vm with
    | true => simpa [ldff_elem_ok, hv] using h (Or.inl hv)
    | false =>
      cases hm : mask i with
      | false => simp [ldff_elem_ok, hv, hm]
      | true => simpa [ldff_elem_ok, hv, hm] using h (Or.inr hm)
  refine ⟨?_, ?_, ?_, ?_⟩
  · intro h0 hact hpf
    rw [vext_ldff, if_pos ⟨h0, hoka 0 hact hpf⟩]
  · intro k hk1 hk2 hact hpf hprev
    rw [vext_ldff, if_neg, firstFail_eq_some _ (vl - 1) 1 k hk1 (by omega)
      (hoka k hact hpf)
      (fun j hj1 hj2 => hokt j (fun hactj => hprev j (by omega) hactj))]
    rintro ⟨_, hc⟩
    rw [hokt 0 (fun hact0 => hprev 0 (by omega) hact0)] at hc
    cases hc
  · intro h
    rw [vext_ldff, if_neg, firstFail_eq_none _ (vl - 1) 1
      (fun j hj1 hj2 => hokt j (fun hactj => h j (by omega) hactj))]
    rintro ⟨h0, hc⟩
    rw [hokt 0 (fun hact0 => h 0 (by omega) hact0)] at hc
    cases hc
  · intro memval s0 n p
    have hshape : ldffAccess vm mask base 1 msz vlmax
        (fun a i t => updf t i (memval a)) n s0 =
        accessLoop (fun i t => if (!vm && !(mask i)) then t
          else updf t i ((fun j => memval (base + j * msz)) i)) n 0 s0 := by
      simp only [ldffAccess, fieldLoop, Nat.mul_one, Nat.add_zero,
        Nat.zero_mul]
    rw [hshape, accessLoop_update_eval (fun i => !vm && !(mask i))
      (fun j => memval (base + j * msz)) n 0 s0 p]
    have hb : ((!vm && !(mask p)) = false) ↔ (vm = true ∨ mask p = true) := by
      cases vm <;> cases hm : mask p <;> simp [hm]
    by_cases hc : p < n ∧ (vm = true ∨ mask p = true)
    · rw [if_pos ⟨by omega, by omega, hb.mpr hc.2⟩, if_pos hc]
    · rw [if_neg, if_neg hc]
      rintro ⟨_, h2, h3⟩
      exact hc ⟨by omega, hb.mp h3⟩

/-- C2 witness: an unmasked fault-only-first load of 8 one-byte elements
from base 0 where addresses 0-2 are accessible and address 3 is not:
the probe of element 3 fails, vl is truncated to 3, no fault is raised,
and the loaded state maps slots 0-2 to the memory values while slot 3 is
untouched. -/
theorem vext_ldff_spec_witness :
    (vext_ldff (σ := Nat → Nat) 8 1 8 true (fun _ => true) 0 1
        (fun a _ => decide (a < 3)) (fun a i t => updf t i (a + 10))
        (fun _ => 0) =
      .ok (3, ldffAccess true (fun _ => true) 0 1 1 8
        (fun a i t => updf t i (a + 10)) 3 (fun _ => 0))) ∧
    (ldffAccess true (fun _ => true) 0 1 1 8
        (fun a i t => updf t i (a + 10)) 3 (fun _ => 0) 2 =
      if 2 < 3 ∧ (true = true ∨ (fun _ : Nat => true) 2 = true) then 2 + 10
      else 0) ∧
    (ldffAccess true (fun _ => true) 0 1 1 8
        (fun a i t => updf t i (a + 10)) 3 (fun _ => 0) 3 =
      if 3 < 3 ∧ (true = true ∨ (fun _ : Nat => true) 3 = true) then 3 + 10
      else 0) := by
  have h := vext_ldff_spec (σ := Nat → Nat) 8 1 8 true (fun _ => true) 0 1
    (fun a _ => decide (a < 3)) (fun a i t => updf t i (a + 10)) (fun _ => 0)
  refine ⟨h.2.1 3 (by decide) (by decide) (Or.inl rfl) (by decide) ?_, ?_, ?_⟩
  · intro j hj _
    interval_cases j <;> decide
  · have := h.2.2.2 (fun a => a + 10) (fun _ => 0) 3 2
    simpa using this
  · have := h.2.2.2 (fun a => a + 10) (fun _ => 0) 3 3
    simpa using this

/-- The skip test !vm && !mask[i] of the element loops is false exactly for
active elements (vm set, or mask bit i set). -/
theorem skip_false_iff (vm : Bool) (mask : Nat → Bool) (i : Nat) :
    ((!vm && !(mask i)) = false) ↔ (vm = true ∨ mask i = true) := by
  cases vm <;> cases h : mask i <;> simp [h]

/-! ### Element compute engine: arithmetic vs mask-producing destinations
(vector_helper.c lines 735-769 and 1269-1294)

A vector register holding elements is a function from element index to the
element's bit pattern; a mask register is its bit-indexed boolean view
(vext_elem_mask / vext_set_elem_mask, lines 161-180). -/

/-- do_vadd_vv_b: OPIVV2 instantiated at vadd_vv_b (lines 735-748): reads
the 8-bit elements s1 = vs1[i], s2 = vs2[i] and stores s2 + s1 (wrapping
at 8 bits) into vd[i]. -/
def do_vadd_vv_b (vs1 vs2 : Nat → Nat) (vd : Nat → Nat) (i : Nat) :
    Nat → Nat :=
  updf vd i ((vs2 i + vs1 i) % 256)

/-- do_vext_vv, vector_helper.c lines 754-769: run the per-element opivv2
callback over the first vl elements, skipping masked-off ones.  Elements
at vl and beyond are never touched. -/
def do_vext_vv (vl : Nat) (vm : Bool) (mask : Nat → Bool)
    (fn : (Nat → Nat) → Nat → (Nat → Nat)) (vd : Nat → Nat) : Nat → Nat :=
  accessLoop (fun i t => if !vm && !(mask i) then t else fn t i) vl 0 vd

/-- helper vmseq_vv_b: GEN_VEXT_CMP_VV at 8 bits (lines 1269-1294): write
mask bit i = (vs2[i] == vs1[i]) for every active i < vl (masked-off bits
keep their old value), then clear every bit in [vl, vlmax). -/
def vmseq_vv_b (vl vlmax : Nat) (vm : Bool) (mask : Nat → Bool)
    (vs1 vs2 : Nat → Nat) (vd : Nat → Bool) : Nat → Bool :=
  let s1 := accessLoop
    (fun i t => if !vm && !(mask i) then t
      else updf t i (decide (vs2 i = vs1 i))) vl 0 vd
  accessLoop (fun i t => updf t i false) (vlmax - vl) vl s1

/-- C5: when vl < VLMAX, the mask-producing comparison vmseq_vv writes 0 to
every destination mask bit with index in [vl, vlmax), while the ordinary
arithmetic vadd_vv leaves every destination element that is masked off or
at index vl or beyond identical to its pre-instruction value. -/
theorem cmp_tail_zeroed_arith_undisturbed (vl vlmax : Nat) (vm : Bool)
    (mask : Nat → Bool) (vs1 vs2 : Nat → Nat) (vdm : Nat → Bool)
    (vd : Nat → Nat) :
    (∀ j, vl ≤ j → j < vlmax →
      vmseq_vv_b vl vlmax vm mask vs1 vs2 vdm j = false) ∧
    (∀ j, vl ≤ j ∨ (vm = false ∧ mask j = false) →
      do_vext_vv vl vm mask (do_vadd_vv_b vs1 vs2) vd j = vd j) := by
  constructor
  · intro j hj1 hj2
    have hshape : (fun (i : Nat) (t : Nat → Bool) => updf t i false) =
        (fun i t => if (fun _ : Nat => false) i then t
          else updf t i ((fun _ : Nat => false) i)) := by
      funext i t
      simp
    rw [vmseq_vv_b]
    rw [hshape, accessLoop_update_eval (fun _ => false) (fun _ => false)
      (vlmax - vl) vl _ j]
    rw [if_pos ⟨hj1, by omega, rfl⟩]
  · intro j hj
    have hshape : (fun (i : Nat) (t : Nat → Nat) =>
        if !vm && !(mask i) then t else do_vadd_vv_b vs1 vs2 t i) =
        (fun i t => if (fun k => !vm && !(mask k)) i then t
          else updf t i ((fun k => (vs2 k + vs1 k) % 256) i)) := by
      funext i t
      simp [do_vadd_vv_b]
    rw [do_vext_vv, hshape, accessLoop_update_eval
      (fun k => !vm && !(mask k)) (fun k => (vs2 k + vs1 k) % 256) vl 0 vd j]
    rw [if_neg]
    rintro ⟨_, hlt, hsk⟩
    rcases hj with h | ⟨h1, h2⟩
    · omega
    · rw [h1, h2] at hsk
      cases hsk

/-- C5 witness: vl = 1, vlmax = 4.  The comparison clears mask bit 2 even
though the old destination bit was 1; vadd leaves element 1 (beyond vl)
and element 0 (masked off, vm = 0) at their old values. -/
theorem cmp_tail_zeroed_arith_undisturbed_witness :
    (vmseq_vv_b 1 4 true (fun _ => true) (fun _ => 5) (fun _ => 5)
      (fun _ => true) 2 = false) ∧
    (do_vext_vv 1 false (fun _ => false) (do_vadd_vv_b (fun _ => 1)
      (fun _ => 2)) (fun j => j + 40) 0 = 0 + 40) ∧
    (do_vext_vv 1 true (fun _ => true) (do_vadd_vv_b (fun _ => 1)
      (fun _ => 2)) (fun j => j + 40) 1 = 1 + 40) := by
  refine ⟨(cmp_tail_zeroed_arith_undisturbed 1 4 true (fun _ => true)
      (fun _ => 5) (fun _ => 5) (fun _ => true) (fun j => j + 40)).1 2
      (by decide) (by decide),
    (cmp_tail_zeroed_arith_undisturbed 1 4 false (fun _ => false)
      (fun _ => 1) (fun _ => 2) (fun _ => true) (fun j => j + 40)).2 0
      (Or.inr ⟨rfl, rfl⟩),
    (cmp_tail_zeroed_arith_undisturbed 1 4 true (fun _ => true)
      (fun _ => 1) (fun _ => 2) (fun _ => true) (fun j => j + 40)).2 1
      (Or.inl (by decide))⟩

/-! ### Register gather (vector_helper.c lines 4538-4591) -/

/-- GEN_VEXT_VRGATHER_VV body (lines 4538-4558): its cutoff variable vlmax
is read from the cpu configuration field cfg.vlen, the register width VLEN
in bits — not the architectural VLMAX of the current vtype.  For every
active element i < vl: the uint32_t local index truncates vs1[i] to 32
bits (line 4545, significant for the uint64_t instantiation
vrgather_vv_d); vd[i] = 0 if index ≥ cutoff, else vs2[index].  Inactive
elements and elements at vl or beyond are not written. -/
def vrgather_vv (cfg_vlen : Nat) (vm : Bool) (mask : Nat → Bool) (vl : Nat)
    (vs1 vs2 vd : Nat → Nat) : Nat → Nat :=
  accessLoop
    (fun i t => if !vm && !(mask i) then t
      else updf t i
        (if cfg_vlen ≤ vs1 i % 2 ^ 32 then 0 else vs2 (vs1 i % 2 ^ 32)))
    vl 0 vd

/-- GEN_VEXT_VRGATHER_VX body (lines 4566-4585): as vrgather_vv but with
the single scalar s1 for every element, likewise truncated to 32 bits by
the uint32_t local (line 4573). -/
def vrgather_vx (cfg_vlen : Nat) (vm : Bool) (mask : Nat → Bool) (vl : Nat)
    (s1 : Nat) (vs2 vd : Nat → Nat) : Nat → Nat :=
  accessLoop
    (fun i t => if !vm && !(mask i) then t
      else updf t i
        (if cfg_vlen ≤ s1 % 2 ^ 32 then 0 else vs2 (s1 % 2 ^ 32)))
    vl 0 vd

/-- C9 counterexample: the helper's cutoff is cfg.vlen = VLEN, not the
architectural VLMAX.  With VLEN = 128, sew = 32, lmul = 1 the spec's
VLMAX is 4, yet an active element whose index value is 5 (≥ VLMAX but
< VLEN) is not zeroed: it reads vs2[5] = 77. -/
theorem vrgather_claim_false_beyond_vlmax :
    vext_get_vlmax 128 ⟨0, 2, 0, false, 0⟩ ≤ 5 ∧
    vrgather_vv 128 true (fun _ => true) 1 (fun _ => 5)
      (fun j => if j = 5 then 77 else 0) (fun _ => 3) 0 = 77 ∧
    (77 : Nat) ≠ 0 := by
  decide

/-- C9 (amended): for every active element i of a register-gather, with
the index value (vs1[i] for the vector form, the scalar s1 for the scalar
form) first truncated to 32 bits by the helpers' uint32_t index local,
the destination element is 0 when the truncated index is at least
cfg.vlen — the configured VLEN, the cutoff the code actually uses — and
otherwise equals source element vs2[truncated index]; masked-off elements
and elements at vl or beyond are not written. -/
theorem vrgather_spec (cfg_vlen vl : Nat) (vm : Bool) (mask : Nat → Bool)
    (vs1 vs2 vd : Nat → Nat) (s1 : Nat) :
    (∀ i, i < vl → (vm = true ∨ mask i = true) →
      vrgather_vv cfg_vlen vm mask vl vs1 vs2 vd i =
        (if cfg_vlen ≤ vs1 i % 2 ^ 32 then 0 else vs2 (vs1 i % 2 ^ 32))) ∧
    (∀ i, vl ≤ i ∨ (vm = false ∧ mask i = false) →
      vrgather_vv cfg_vlen vm mask vl vs1 vs2 vd i = vd i) ∧
    (∀ i, i < vl → (vm = true ∨ mask i = true) →
      vrgather_vx cfg_vlen vm mask vl s1 vs2 vd i =
        (if cfg_vlen ≤ s1 % 2 ^ 32 then 0 else vs2 (s1 % 2 ^ 32))) ∧
    (∀ i, vl ≤ i ∨ (vm = false ∧ mask i = false) →
      vrgather_vx cfg_vlen vm mask vl s1 vs2 vd i = vd i) := by
  have hvv : ∀ i, vrgather_vv cfg_vlen vm mask vl vs1 vs2 vd i =
      if 0 ≤ i ∧ i < 0 + vl ∧ (!vm && !(mask i)) = false then
        (if cfg_vlen ≤ vs1 i % 2 ^ 32 then 0 else vs2 (vs1 i % 2 ^ 32))
      else vd i := by
    intro i
    rw [vrgather_vv]
    exact accessLoop_update_eval (fun k => !vm && !(mask k))
      (fun k => if cfg_vlen ≤ vs1 k % 2 ^ 32 then 0 else vs2 (vs1 k % 2 ^ 32))
      vl 0 vd i
  have hvx : ∀ i, vrgather_vx cfg_vlen vm mask vl s1 vs2 vd i =
      if 0 ≤ i ∧ i < 0 + vl ∧ (!vm && !(mask i)) = false then
        (if cfg_vlen ≤ s1 % 2 ^ 32 then 0 else vs2 (s1 % 2 ^ 32))
      else vd i := by
    intro i
    rw [vrgather_vx]
    exact accessLoop_update_eval (fun k => !vm && !(mask k))
      (fun k => if cfg_vlen ≤ s1 % 2 ^ 32 then 0 else vs2 (s1 % 2 ^ 32))
      vl 0 vd i
  refine ⟨?_, ?_, ?_, ?_⟩
  · intro i hi hact
    rw [hvv i, if_pos ⟨by omega, by omega, (skip_false_iff vm mask i).mpr hact⟩]
  · intro i hi
    rw [hvv i, if_neg]
    rintro ⟨_, hlt, hsk⟩
    rcases hi with h | ⟨h1, h2⟩
    · omega
    · rw [h1, h2] at hsk
      cases hsk
  · intro i hi hact
    rw [hvx i, if_pos ⟨by omega, by omega, (skip_false_iff vm mask i).mpr hact⟩]
  · intro i hi
    rw [hvx i, if_neg]
    rintro ⟨_, hlt, hsk⟩
    rcases hi with h | ⟨h1, h2⟩
    · omega
    · rw [h1, h2] at hsk
      cases hsk

/-- C9 witness: an in-range index gathers the source element, an index at
or beyond the cutoff yields 0, a masked-off element keeps its old value,
and for the 64-bit instantiation an index value of 2^32 + 5 wraps to 5
before the cutoff comparison and reads vs2[5]. -/
theorem vrgather_spec_witness :
    (vrgather_vv 128 true (fun _ => true) 2 (fun i => i + 1)
      (fun j => j + 50) (fun _ => 3) 0 =
      if 128 ≤ (0 + 1 : Nat) % 2 ^ 32 then 0
      else ((0 + 1) % 2 ^ 32) + 50) ∧
    (vrgather_vx 128 true (fun _ => true) 2 200 (fun j => j + 50)
      (fun _ => 3) 1 =
      if 128 ≤ (200 : Nat) % 2 ^ 32 then 0 else (200 % 2 ^ 32) + 50) ∧
    (vrgather_vv 128 false (fun _ => false) 2 (fun i => i + 1)
      (fun j => j + 50) (fun _ => 3) 1 = 3) ∧
    (vrgather_vv 128 true (fun _ => true) 1 (fun _ => 2 ^ 32 + 5)
      (fun j => j + 50) (fun _ => 3) 0 =
      if 128 ≤ (2 ^ 32 + 5) % 2 ^ 32 then 0
      else ((2 ^ 32 + 5) % 2 ^ 32) + 50) ∧
    ((2 ^ 32 + 5) % 2 ^ 32 : Nat) = 5 := by
  have h1 := (vrgather_spec 128 2 true (fun _ => true) (fun i => i + 1)
    (fun j => j + 50) (fun _ => 3) 200).1 0 (by decide) (Or.inl rfl)
  have h2 := (vrgather_spec 128 2 true (fun _ => true) (fun i => i + 1)
    (fun j => j + 50) (fun _ => 3) 200).2.2.1 1 (by decide) (Or.inl rfl)
  have h3 := (vrgather_spec 128 2 false (fun _ => false) (fun i => i + 1)
    (fun j => j + 50) (fun _ => 3) 200).2.1 1 (Or.inr ⟨rfl, rfl⟩)
  have h4 := (vrgather_spec 128 1 true (fun _ => true) (fun _ => 2 ^ 32 + 5)
    (fun j => j + 50) (fun _ => 3) 200).1 0 (by decide) (Or.inl rfl)
  exact ⟨h1, h2, h3, h4, by norm_num⟩

/-! ### Fixed-point saturating add (vector_helper.c lines 2004-2012 and
2129-2137).  8-bit values are carried as bit patterns (Nat < 256); env's
sticky vxsat flag is threaded through explicitly. -/

/-- Signed reading of an 8-bit pattern. -/
def toS8 (x : Nat) : Int := if x < 128 then (x : Int) else (x : Int) - 256

/-- saddu8, vector_helper.c lines 2004-2012: res = a + b wraps at 8 bits;
res < a detects the carry, saturating to UINT8_MAX and setting vxsat. -/
def saddu8 (vxsat : Bool) (a b : Nat) : Nat × Bool :=
  let res := (a + b) % 256
  if res < a then (255, true) else (res, vxsat)

/-- sadd8, vector_helper.c lines 2129-2137: res = a + b wraps at 8 bits;
(res ^ a) & (res ^ b) & INT8_MIN is the two's-complement overflow test
(result sign differs from both operand signs); a > 0 is the signed
comparison choosing INT8_MAX (pattern 127) or INT8_MIN (pattern 128). -/
def sadd8 (vxsat : Bool) (a b : Nat) : Nat × Bool :=
  let res := (a + b) % 256
  if (res ^^^ a) &&& (res ^^^ b) &&& 128 ≠ 0 then
    ((if 0 < toS8 a then 127 else 128), true)
  else (res, vxsat)

/-- Bit 7 selects whether the AND with 0x80 is nonzero. -/
theorem and_128_ne_zero (z : Nat) : z &&& 128 ≠ 0 ↔ z.testBit 7 = true := by
  have h : z &&& 128 = if z.testBit 7 then 128 else 0 := by
    apply Nat.eq_of_testBit_eq
    intro i
    rw [Nat.testBit_and]
    have h128 : (128 : Nat) = 2 ^ 7 := by norm_num
    by_cases hi : (7 : Nat) = i
    · subst hi
      cases hz : z.testBit 7 <;>
        simp [hz, (by decide : Nat.testBit 128 7 = true)]
    · have h0 : Nat.testBit 128 i = false := by
        rw [h128]
        exact Nat.testBit_two_pow_of_ne hi
      cases hz : z.testBit 7 <;> simp [hz, h0]
  rw [h]
  cases hz : z.testBit 7 <;> simp [hz]

/-- For an 8-bit pattern, bit 7 is the sign bit. -/
theorem testBit7_iff (x : Nat) (hx : x < 256) :
    x.testBit 7 = true ↔ 128 ≤ x := by
  rw [Nat.testBit_to_div_mod]
  simp only [decide_eq_true_eq]
  omega

/-- toS8 of an 8-bit pattern lies in [-128, 127]. -/
theorem toS8_bounds (x : Nat) (hx : x < 256) :
    -128 ≤ toS8 x ∧ toS8 x ≤ 127 := by
  simp only [toS8]
  split_ifs <;> omega

/-- C6: for 8-bit saturating adds, a sum that fits leaves vxsat untouched
and stores the exact sum; a sum that overflows stores INT8_MAX (or
INT8_MIN on signed underflow, or UINT8_MAX unsigned) and sets vxsat to 1,
which also keeps it at 1 when it was already 1.  In particular
sadd8(INT8_MAX, 1) = INT8_MAX with vxsat set. -/
theorem sadd_saturation (vxsat : Bool) (a b : Nat)
    (ha : a < 256) (hb : b < 256) :
    (-128 ≤ toS8 a + toS8 b → toS8 a + toS8 b ≤ 127 →
      sadd8 vxsat a b = (((toS8 a + toS8 b) % 256).toNat, vxsat)) ∧
    (127 < toS8 a + toS8 b → sadd8 vxsat a b = (127, true)) ∧
    (toS8 a + toS8 b < -128 → sadd8 vxsat a b = (128, true)) ∧
    (a + b < 256 → saddu8 vxsat a b = (a + b, vxsat)) ∧
    (256 ≤ a + b → saddu8 vxsat a b = (255, true)) := by
  have hr256 : (a + b) % 256 < 256 := Nat.mod_lt _ (by omega)
  have h1 := testBit7_iff ((a + b) % 256) hr256
  have h2 := testBit7_iff a ha
  have h3 := testBit7_iff b hb
  have hover : ((a + b) % 256 ^^^ a) &&& ((a + b) % 256 ^^^ b) &&& 128 ≠ 0 ↔
      (toS8 a + toS8 b < -128 ∨ 127 < toS8 a + toS8 b) := by
    rw [and_128_ne_zero, Nat.testBit_and, Nat.testBit_xor, Nat.testBit_xor]
    cases hx : ((a + b) % 256).testBit 7 <;> cases hy : a.testBit 7 <;>
      cases hz : b.testBit 7 <;>
      simp only [hx, hy, hz, Bool.false_bne, Bool.true_bne, Bool.bne_false,
        Bool.bne_true, Bool.and_true, Bool.and_false, Bool.true_and,
        Bool.false_and, Bool.not_true, Bool.not_false] <;>
      rw [hx] at h1 <;> rw [hy] at h2 <;> rw [hz] at h3 <;>
      simp only [toS8] <;>
      constructor <;> intro hgoal <;> split_ifs at hgoal ⊢ <;>
      simp_all <;> omega
  refine ⟨?_, ?_, ?_, ?_, ?_⟩
  · intro hlo hhi
    simp only [sadd8]
    rw [if_neg (fun hov => by rcases hover.mp hov with h | h <;> omega)]
    have heq : (a + b) % 256 = ((toS8 a + toS8 b) % 256).toNat := by
      simp only [toS8] at *
      split_ifs at * <;> omega
    rw [heq]
  · intro hgt
    simp only [sadd8]
    rw [if_pos (hover.mpr (Or.inr hgt)),
      if_pos (by have := toS8_bounds b hb; omega)]
  · intro hlt
    simp only [sadd8]
    rw [if_pos (hover.mpr (Or.inl hlt)),
      if_neg (by have := toS8_bounds b hb; omega)]
  · intro hfits
    simp only [saddu8]
    rw [Nat.mod_eq_of_lt hfits, if_neg (by omega)]
  · intro hcarry
    simp only [saddu8]
    rw [if_pos (by omega)]

/-- C6 witness: sadd8 of INT8_MAX (pattern 127) and 1 overflows to
INT8_MAX with vxsat set (also when vxsat was already set), and
saddu8 200 + 100 saturates to 255; 100 + 100 stays exact with vxsat
untouched. -/
theorem sadd_saturation_witness :
    (sadd8 false 127 1 = (127, true)) ∧
    (sadd8 true 127 1 = (127, true)) ∧
    (saddu8 false 200 100 = (255, true)) ∧
    (saddu8 false 100 100 = (100 + 100, false)) := by
  refine ⟨(sadd_saturation false 127 1 (by decide) (by decide)).2.1 (by decide),
    (sadd_saturation true 127 1 (by decide) (by decide)).2.1 (by decide),
    (sadd_saturation false 200 100 (by decide) (by decide)).2.2.2.2 (by decide),
    (sadd_saturation false 100 100 (by decide) (by decide)).2.2.2.1 (by decide)⟩

/-! ### Integer divide and remainder (vector_helper.c lines 1609-1615)

The DO_DIVU / DO_REMU / DO_DIV / DO_REM element operations.  8-bit
operands are promoted to int by C, so arithmetic before the store is
exact and the comparison N == -N only holds for N = 0; the store back to
int8_t wraps.  64-bit operands stay 64-bit: qemu builds with -fwrapv, so
-N wraps and N == -N holds for 0 and INT64_MIN. -/

/-- Store conversion to int8_t (two's complement wrap), as a pattern. -/
def wrap8 (x : Int) : Nat := (x % 256).toNat

/-- Signed reading of a 64-bit pattern. -/
def toS64 (x : Nat) : Int := if x < 2 ^ 63 then (x : Int) else (x : Int) - 2 ^ 64

/-- Store conversion to int64_t, as a pattern. -/
def wrap64 (x : Int) : Nat := (x % 2 ^ 64).toNat

/-- 64-bit two's complement negation (with -fwrapv semantics). -/
def neg64 (x : Nat) : Nat := wrap64 (-(toS64 x))

/-- DO_DIV at 8 bits (line 1612, OPIVV2 at vdiv_vv_b). -/
def DO_DIV8 (n m : Nat) : Nat :=
  let N := toS8 n
  let M := toS8 m
  if M = 0 then wrap8 (-1)
  else if N = -N ∧ M = -1 then wrap8 N
  else wrap8 (N.tdiv M)

/-- DO_REM at 8 bits (line 1614). -/
def DO_REM8 (n m : Nat) : Nat :=
  let N := toS8 n
  let M := toS8 m
  if M = 0 then wrap8 N
  else if N = -N ∧ M = -1 then 0
  else wrap8 (N.tmod M)

/-- DO_DIVU at 8 bits (line 1610): (uint8_t)(-1) is 255. -/
def DO_DIVU8 (n m : Nat) : Nat := if m = 0 then 255 else n / m

/-- DO_REMU at 8 bits (line 1611). -/
def DO_REMU8 (n m : Nat) : Nat := if m = 0 then n else n % m

/-- DO_DIV at 64 bits (OPIVV2 at vdiv_vv_d): the N == -N test compares the
wrapped negation. -/
def DO_DIV64 (n m : Nat) : Nat :=
  if toS64 m = 0 then wrap64 (-1)
  else if n = neg64 n ∧ toS64 m = -1 then wrap64 (toS64 n)
  else wrap64 ((toS64 n).tdiv (toS64 m))

/-- DO_REM at 64 bits. -/
def DO_REM64 (n m : Nat) : Nat :=
  if toS64 m = 0 then wrap64 (toS64 n)
  else if n = neg64 n ∧ toS64 m = -1 then 0
  else wrap64 ((toS64 n).tmod (toS64 m))

/-- DO_DIVU at 64 bits: (uint64_t)(-1) is 2^64 - 1. -/
def DO_DIVU64 (n m : Nat) : Nat := if m = 0 then 2 ^ 64 - 1 else n / m

/-- DO_REMU at 64 bits. -/
def DO_REMU64 (n m : Nat) : Nat := if m = 0 then n else n % m

theorem neg_tmod_eq (a b : Int) : (-a).tmod b = -(a.tmod b) := by
  rw [Int.tmod_def, Int.tmod_def, Int.neg_tdiv]
  ring

/-- The truncating remainder is smaller than the divisor in absolute
value. -/
theorem tmod_natAbs_lt (x y : Int) (hy : y ≠ 0) :
    (x.tmod y).natAbs < y.natAbs := by
  suffices hpos : ∀ (a z : Int), 0 < z → (a.tmod z).natAbs < z.natAbs by
    rcases lt_or_gt_of_ne hy with h | h
    · have h2 := Int.tmod_neg x (-y)
      rw [neg_neg] at h2
      have h3 := hpos x (-y) (by omega)
      omega
    · exact hpos x y h
  intro a z hz
  rcases le_or_lt 0 a with ha | ha
  · have h1 := Int.tmod_nonneg z ha
    have h2 := Int.tmod_lt_of_pos a hz
    omega
  · have h1 := Int.tmod_nonneg z (by omega : (0 : Int) ≤ -a)
    have h2 := Int.tmod_lt_of_pos (-a) hz
    have h3 := neg_tmod_eq a z
    omega

/-- The truncating quotient of a B-bit signed range stays in range except
for the single overflowing pair (-B, -1). -/
theorem tdiv_bound (N M B : Int) (hN1 : -B ≤ N) (hN2 : N ≤ B - 1)
    (hM : M ≠ 0) (hexc : ¬(N = -B ∧ M = -1)) :
    -B ≤ N.tdiv M ∧ N.tdiv M ≤ B - 1 := by
  by_cases h1 : M = 1
  · rw [h1, Int.tdiv_one]
    omega
  · by_cases h2 : M = -1
    · rw [h2, Int.tdiv_neg, Int.tdiv_one]
      have : N ≠ -B := fun h => hexc ⟨h, h2⟩
      omega
    · have h2abs : 2 ≤ M.natAbs := by omega
      have habs : (N.tdiv M).natAbs = N.natAbs / M.natAbs :=
        Int.natAbs_tdiv N M
      have hle : N.natAbs / M.natAbs ≤ N.natAbs / 2 :=
        Nat.div_le_div_left h2abs (by norm_num)
      generalize hqdef : N.tdiv M = q at habs ⊢
      omega

theorem toS8_wrap8 (q : Int) (h1 : -128 ≤ q) (h2 : q ≤ 127) :
    toS8 (wrap8 q) = q := by
  simp only [toS8, wrap8]
  split_ifs <;> omega

theorem wrap8_toS8 (x : Nat) (hx : x < 256) : wrap8 (toS8 x) = x := by
  simp only [toS8, wrap8]
  split_ifs <;> omega

theorem toS64_wrap64 (q : Int) (h1 : -(2 ^ 63) ≤ q) (h2 : q ≤ 2 ^ 63 - 1) :
    toS64 (wrap64 q) = q := by
  simp only [toS64, wrap64]
  split_ifs <;> omega

theorem wrap64_toS64 (x : Nat) (hx : x < 2 ^ 64) : wrap64 (toS64 x) = x := by
  simp only [toS64, wrap64]
  split_ifs <;> omega

theorem toS64_bounds (x : Nat) (hx : x < 2 ^ 64) :
    -(2 ^ 63) ≤ toS64 x ∧ toS64 x ≤ 2 ^ 63 - 1 := by
  simp only [toS64]
  split_ifs <;> omega

/-- A 64-bit pattern equal to its own wrapped negation is 0 or INT64_MIN. -/
theorem neg64_fixed (x : Nat) (hx : x < 2 ^ 64) (h : x = neg64 x) :
    toS64 x = 0 ∨ toS64 x = -(2 ^ 63) := by
  simp only [neg64, wrap64, toS64] at *
  split_ifs at * <;> omega

/-- C8: integer divide and remainder never trap.  Division by zero yields
an all-ones quotient (255 as uint8, 2^64-1 as uint64) and a remainder
equal to the dividend; the signed overflow INT_MIN / -1 yields the
dividend as quotient and remainder 0; every other pair produces the exact
truncated quotient and remainder.  Proved in full at 8 and 64 bits, the
two widths whose C arithmetic paths differ (int promotion vs -fwrapv
wraparound). -/
theorem div_rem_never_trap (n m n64 m64 : Nat)
    (hn : n < 256) (hm : m < 256)
    (hn64 : n64 < 2 ^ 64) (hm64 : m64 < 2 ^ 64) :
    (toS8 m = 0 → DO_DIV8 n m = 255 ∧ DO_REM8 n m = n) ∧
    (toS8 n = -128 → toS8 m = -1 → DO_DIV8 n m = n ∧ DO_REM8 n m = 0) ∧
    (toS8 m ≠ 0 → ¬(toS8 n = -128 ∧ toS8 m = -1) →
      toS8 (DO_DIV8 n m) = (toS8 n).tdiv (toS8 m) ∧
      toS8 (DO_REM8 n m) = (toS8 n).tmod (toS8 m)) ∧
    (m = 0 → DO_DIVU8 n m = 255 ∧ DO_REMU8 n m = n) ∧
    (m ≠ 0 → DO_DIVU8 n m = n / m ∧ DO_REMU8 n m = n % m) ∧
    (toS64 m64 = 0 → DO_DIV64 n64 m64 = 2 ^ 64 - 1 ∧ DO_REM64 n64 m64 = n64) ∧
    (toS64 n64 = -(2 ^ 63) → toS64 m64 = -1 →
      DO_DIV64 n64 m64 = n64 ∧ DO_REM64 n64 m64 = 0) ∧
    (toS64 m64 ≠ 0 → ¬(toS64 n64 = -(2 ^ 63) ∧ toS64 m64 = -1) →
      toS64 (DO_DIV64 n64 m64) = (toS64 n64).tdiv (toS64 m64) ∧
      toS64 (DO_REM64 n64 m64) = (toS64 n64).tmod (toS64 m64)) ∧
    (m64 = 0 → DO_DIVU64 n64 m64 = 2 ^ 64 - 1 ∧ DO_REMU64 n64 m64 = n64) ∧
    (m64 ≠ 0 → DO_DIVU64 n64 m64 = n64 / m64 ∧ DO_REMU64 n64 m64 = n64 % m64) := by
  have hNb := toS8_bounds n hn
  have hMb := toS8_bounds m hm
  have hN64b := toS64_bounds n64 hn64
  have hM64b := toS64_bounds m64 hm64
  refine ⟨?_, ?_, ?_, ?_, ?_, ?_, ?_, ?_, ?_, ?_⟩
  · intro hm0
    simp only [DO_DIV8, DO_REM8, if_pos hm0]
    exact ⟨by decide, wrap8_toS8 n hn⟩
  · intro hnmin hmneg
    have hn128 : n = 128 := by simp only [toS8] at hnmin; split_ifs at hnmin <;> omega
    have hm255 : m = 255 := by simp only [toS8] at hmneg; split_ifs at hmneg <;> omega
    subst hn128
    subst hm255
    exact ⟨by decide, by decide⟩
  · intro hm0 hexc
    constructor
    · simp only [DO_DIV8, if_neg hm0]
      by_cases hsp : toS8 n = -(toS8 n) ∧ toS8 m = -1
      · rw [if_pos hsp]
        have hn0 : toS8 n = 0 := by omega
        rw [hn0, hsp.2, Int.zero_tdiv]
        exact toS8_wrap8 0 (by norm_num) (by norm_num)
      · rw [if_neg hsp]
        have hb := tdiv_bound (toS8 n) (toS8 m) 128 hNb.1 (by omega) hm0
          (fun h => hexc ⟨h.1, h.2⟩)
        exact toS8_wrap8 _ hb.1 (by omega)
    · simp only [DO_REM8, if_neg hm0]
      by_cases hsp : toS8 n = -(toS8 n) ∧ toS8 m = -1
      · rw [if_pos hsp]
        have hn0 : toS8 n = 0 := by omega
        rw [hn0, hsp.2, Int.zero_tmod]
        decide
      · rw [if_neg hsp]
        have hb := tmod_natAbs_lt (toS8 n) (toS8 m) hm0
        exact toS8_wrap8 _ (by omega) (by omega)
  · intro hm0
    simp only [DO_DIVU8, DO_REMU8, if_pos hm0]
    exact ⟨trivial, trivial⟩
  · intro hm0
    simp only [DO_DIVU8, DO_REMU8, if_neg hm0]
    exact ⟨trivial, trivial⟩
  · intro hm0
    have hm64z : m64 = 0 := by simp only [toS64] at hm0; split_ifs at hm0 <;> omega
    subst hm64z
    simp only [DO_DIV64, DO_REM64, if_pos hm0]
    exact ⟨by decide, wrap64_toS64 n64 hn64⟩
  · intro hnmin hmneg
    have hn2 : n64 = 2 ^ 63 := by
      simp only [toS64] at hnmin; split_ifs at hnmin <;> omega
    have hm2 : m64 = 2 ^ 64 - 1 := by
      simp only [toS64] at hmneg; split_ifs at hmneg <;> omega
    subst hn2
    subst hm2
    exact ⟨by decide, by decide⟩
  · intro hm0 hexc
    constructor
    · simp only [DO_DIV64, if_neg hm0]
      by_cases hsp : n64 = neg64 n64 ∧ toS64 m64 = -1
      · rw [if_pos hsp]
        rcases neg64_fixed n64 hn64 hsp.1 with h0 | hmin
        · rw [h0, hsp.2, Int.zero_tdiv]
          exact toS64_wrap64 0 (by norm_num) (by norm_num)
        · exact absurd ⟨hmin, hsp.2⟩ hexc
      · rw [if_neg hsp]
        have hb := tdiv_bound (toS64 n64) (toS64 m64) (2 ^ 63) hN64b.1
          hN64b.2 hm0 (fun h => hsp ⟨?_, h.2⟩)
        · exact toS64_wrap64 _ hb.1 hb.2
        · have : n64 = 2 ^ 63 := by
            have := h.1
            simp only [toS64] at this; split_ifs at this <;> omega
          subst this
          decide
    · simp only [DO_REM64, if_neg hm0]
      by_cases hsp : n64 = neg64 n64 ∧ toS64 m64 = -1
      · rw [if_pos hsp]
        rcases neg64_fixed n64 hn64 hsp.1 with h0 | hmin
        · rw [h0, hsp.2, Int.zero_tmod]
          decide
        · exact absurd ⟨hmin, hsp.2⟩ hexc
      · rw [if_neg hsp]
        have hb := tmod_natAbs_lt (toS64 n64) (toS64 m64) hm0
        exact toS64_wrap64 _ (by omega) (by omega)
  · intro hm0
    simp only [DO_DIVU64, DO_REMU64, if_pos hm0]
    exact ⟨trivial, trivial⟩
  · intro hm0
    simp only [DO_DIVU64, DO_REMU64, if_neg hm0]
    exact ⟨trivial, trivial⟩

/-- C8 witness: 8-bit division of -128 by -1 (patterns 128, 255) returns
the dividend with remainder 0; division by zero returns 255 and the
dividend; an ordinary pair gives the exact truncated results; the 64-bit
INT64_MIN / -1 pair passes through likewise. -/
theorem div_rem_never_trap_witness :
    (DO_DIV8 128 255 = 128 ∧ DO_REM8 128 255 = 0) ∧
    (DO_DIV8 7 0 = 255 ∧ DO_REM8 7 0 = 7) ∧
    (toS8 (DO_DIV8 249 2) = (toS8 249).tdiv (toS8 2) ∧
      toS8 (DO_REM8 249 2) = (toS8 249).tmod (toS8 2)) ∧
    (DO_DIV64 (2 ^ 63) (2 ^ 64 - 1) = 2 ^ 63 ∧
      DO_REM64 (2 ^ 63) (2 ^ 64 - 1) = 0) := by
  have h1 := div_rem_never_trap 128 255 1 1 (by decide) (by decide)
    (by norm_num) (by norm_num)
  have h2 := div_rem_never_trap 7 0 1 1 (by decide) (by decide)
    (by norm_num) (by norm_num)
  have h3 := div_rem_never_trap 249 2 1 1 (by decide) (by decide)
    (by norm_num) (by norm_num)
  have h4 := div_rem_never_trap 1 1 (2 ^ 63) (2 ^ 64 - 1) (by decide)
    (by decide) (by norm_num) (by norm_num)
  exact ⟨h1.2.1 (by decide) (by decide), h2.1 (by decide),
    h3.2.2.1 (by decide) (by decide),
    h4.2.2.2.2.2.2.1 (by norm_num [toS64]) (by norm_num [toS64])⟩
